import Mathlib

/-!
Shallow embedding of the capture-buffer-and-synchronize pipeline of
`streamlit_app.py` (functions `upload_bulk_to_github`, `capture_images`, `main`),
together with proofs about its data model and operations.

Modelling conventions:
* machine bytes are `Nat` values; file contents are byte lists;
* the local filesystem is an association list from path to contents, with the
  POSIX behaviours the code relies on (`open` for read raises on a missing
  file, `os.remove` raises `FileNotFoundError` on a missing file);
* the remote store (the GitHub contents API) is an oracle `Env` giving, for
  each request, either an HTTP response or a raised transport exception;
* Python exceptions are `Except.error`; the `try`/`except` blocks of the
  source become `match` dispatch on those values;
* `st.session_state.upload_message` assignments and log lines are collected
  as a message list; side effects on the network are collected as an event
  trace.
-/

namespace GenDataset

/-- File contents: a list of bytes. -/
abbrev Bytes := List Nat

/-- The local filesystem: an association list from path to file contents. -/
abbrev FS := List (String × Bytes)

/-- Reading a file (`open(path, 'rb').read()`): the bytes when the path is
present, a raised `FileNotFoundError` otherwise. -/
def fs_read : FS → String → Except String Bytes
  | [], p => .error ("FileNotFoundError: " ++ p)
  | q :: fs, p => if q.1 = p then .ok q.2 else fs_read fs p

/-- Does a path exist on the filesystem? -/
def fs_has (fs : FS) (p : String) : Bool :=
  match fs_read fs p with
  | .ok _ => true
  | .error _ => false

/-- Removes every entry stored under a path. -/
def fs_erase : FS → String → FS
  | [], _ => []
  | q :: fs, p => if q.1 = p then fs_erase fs p else q :: fs_erase fs p

/-- Writing a file (`cv2.imwrite`): the new contents replace any previous
contents under the same path. -/
def fs_write (fs : FS) (p : String) (b : Bytes) : FS :=
  (p, b) :: fs_erase fs p

/-- Deleting a file (`os.remove`): removes the path when present, raises
`FileNotFoundError` when the path does not exist (POSIX `unlink` semantics —
removing an already-removed file is an error, not a no-op). -/
def os_remove (fs : FS) (p : String) : Except String FS :=
  if fs_has fs p then .ok (fs_erase fs p)
  else .error ("FileNotFoundError: " ++ p)

/-- Decimal digits, by structural recursion on a fuel bound (adequate once
the fuel is at least the number): the digits of `n`, most significant
first. -/
def natDigitsAux : Nat → Nat → List Nat
  | 0, n => [n]
  | fuel + 1, n => if n < 10 then [n] else natDigitsAux fuel (n / 10) ++ [n % 10]

/-- Decimal digits of a natural number, most significant first; embeds
Python's `str(count)` for the nonnegative ints used as capture counters. -/
def natDigits (n : Nat) : List Nat := natDigitsAux n n

/-- Decimal rendering of a natural number, as `str` produces it. -/
def natStr (n : Nat) : String :=
  String.mk ((natDigits n).map Nat.digitChar)

/-- Value of a digit list read back as a decimal number. -/
def digitsVal (l : List Nat) : Nat := l.foldl (fun a d => 10 * a + d) 0

/-- Base64 alphabet used by `base64.b64encode`. -/
def b64Chars : List Char :=
  "ABCDEFGHIJKLMNOPQRSTUVWXYZabcdefghijklmnopqrstuvwxyz0123456789+/".data

/-- Character of the base64 alphabet at an index. -/
def b64Char (n : Nat) : Char := b64Chars.getD n 'A'

/-- Base64 encoding of a byte list (standard alphabet, `=` padding), as
`base64.b64encode(content)` produces. Each group of three bytes becomes four
alphabet characters; a final group of one or two bytes is padded. -/
def b64encode : Bytes → List Char
  | [] => []
  | [a] => [b64Char (a / 4), b64Char (a % 4 * 16), '=', '=']
  | [a, b] => [b64Char (a / 4), b64Char (a % 4 * 16 + b / 16), b64Char (b % 16 * 4), '=']
  | a :: b :: c :: rest =>
      b64Char (a / 4) :: b64Char (a % 4 * 16 + b / 16) :: b64Char (b % 16 * 4 + c / 64) ::
        b64Char (c % 64) :: b64encode rest

/-- Base64 encoding as a string: `base64.b64encode(content).decode('utf-8')`. -/
def b64encodeStr (content : Bytes) : String := String.mk (b64encode content)

/-- Result of `requests.get` on a contents URL: either a response carrying an
HTTP status and the `sha` field of its JSON body (read by the code only when
the status is 200; GitHub always supplies it there), or a raised transport
exception. -/
inductive GetResult where
  | resp (status : Nat) (sha : String)
  | raise (e : String)
deriving DecidableEq

/-- Result of `requests.put` on a contents URL: either a response carrying an
HTTP status and a rendering of its JSON body (used in the failure message), or
a raised transport exception. -/
inductive PutResult where
  | resp (status : Nat) (body : String)
  | raise (e : String)
deriving DecidableEq

/-- Body of a contents-API write request, as assembled by the code: commit
message, base64 content, target branch, and the optional `sha` version token
(present exactly when updating an existing file). -/
structure CommitData where
  message : String
  content : String
  branch : String
  sha : Option String
deriving DecidableEq

/-- The remote store, as an oracle: what each GET of a repo path returns, and
what each PUT of a repo path with a given body returns. -/
structure Env where
  httpGet : String → GetResult
  httpPut : String → CommitData → PutResult

/-- Network and local-read events, in the order the code performs them. -/
inductive Event where
  | fileRead (path : String)
  | httpGet (path : String)
  | httpPut (path : String) (data : CommitData)
deriving DecidableEq

/-- Is an event a remote write? -/
def Event.isPut : Event → Bool
  | .httpPut _ _ => true
  | _ => false

/-- Per-file classification made by the upload loop on the write response:
201 is a creation, 200 is an update, anything else a failure. -/
inductive SyncResult where
  | Created
  | Updated
  | Failed
deriving DecidableEq

/-- Per-file outcome of the upload loop: the repo path, which branch of the
status dispatch ran, and the message the code emitted for it. -/
structure SyncOutcome where
  logical_path : String
  result : SyncResult
  detail : String
deriving DecidableEq

/-- Phase one of `upload_bulk_to_github` (the first `for` loop): for each
`(file_path, repo_path)` pair, read the local file, base64-encode it, GET the
repo path, and assemble the commit body — with the `sha` of the GET response
when its status is 200, without a `sha` otherwise. Returns the events and
messages produced, and either the assembled commit list or the first raised
exception (a raised exception stops the loop, as in the source, where the
whole function body sits in one `try`). -/
def buildCommits (fs : FS) (env : Env) (branch : String) :
    List (String × String) → List Event × List String × Except String (List (String × CommitData))
  | [] => ([], [], .ok [])
  | (file_path, repo_path) :: rest =>
    match fs_read fs file_path with
    | .error e => ([.fileRead file_path], [], .error e)
    | .ok content =>
      let encoded_content := b64encodeStr content
      match env.httpGet repo_path with
      | .raise e => ([.fileRead file_path, .httpGet repo_path], [], .error e)
      | .resp status sha =>
        let commit_data : CommitData :=
          if status = 200 then
            ⟨"Update " ++ repo_path, encoded_content, branch, some sha⟩
          else
            ⟨"Add " ++ repo_path, encoded_content, branch, none⟩
        let msg :=
          if status = 200 then "Updating " ++ repo_path ++ "..."
          else "Adding " ++ repo_path ++ "..."
        match buildCommits fs env branch rest with
        | (evs, msgs, res) =>
          (.fileRead file_path :: .httpGet repo_path :: evs, msg :: msgs,
           match res with
           | .ok commits => .ok ((repo_path, commit_data) :: commits)
           | .error e => .error e)

/-- Phase two of `upload_bulk_to_github` (the second `for` loop): PUT each
assembled commit in order and classify each response — 201 a creation, 200 an
update, anything else a failure carrying the response body in its message.
Each message is followed by the empty string (the code clears the message
after a settling delay). A raised exception stops the loop. -/
def runUploads (env : Env) :
    List (String × CommitData) → List Event × List String × List SyncOutcome × Except String Unit
  | [] => ([], [], [], .ok ())
  | (repo_path, commit_data) :: rest =>
    match env.httpPut repo_path commit_data with
    | .raise e => ([.httpPut repo_path commit_data], [], [], .error e)
    | .resp status body =>
      let oc : SyncOutcome :=
        if status = 201 then ⟨repo_path, .Created, "Successfully uploaded " ++ repo_path⟩
        else if status = 200 then ⟨repo_path, .Updated, "Successfully updated " ++ repo_path⟩
        else ⟨repo_path, .Failed, "Failed to upload " ++ repo_path ++ ": " ++ body⟩
      match runUploads env rest with
      | (evs, msgs, ocs, res) =>
        (.httpPut repo_path commit_data :: evs, oc.detail :: "" :: msgs, oc :: ocs, res)

/-- Observable result of one call to `upload_bulk_to_github`: the event trace,
the successive values assigned to `st.session_state.upload_message`, the
per-file outcomes of the upload loop, and — when the surrounding `except`
clause caught an exception — the exception text. -/
structure RunResult where
  events : List Event
  messages : List String
  outcomes : List SyncOutcome
  aborted : Option String
deriving DecidableEq

/-- Body of `upload_bulk_to_github` inside its `try`: build all commits, then
perform all uploads. An exception raised anywhere propagates out of the body
with the events, messages and outcomes produced up to that point. -/
def upload_bulk_body (fs : FS) (env : Env) (branch : String)
    (files_data : List (String × String)) :
    List Event × List String × List SyncOutcome × Except String Unit :=
  match buildCommits fs env branch files_data with
  | (evs1, msgs1, .error e) => (evs1, msgs1, [], .error e)
  | (evs1, msgs1, .ok commits) =>
    match runUploads env commits with
    | (evs2, msgs2, ocs, res) => (evs1 ++ evs2, msgs1 ++ msgs2, ocs, res)

/-- The function `upload_bulk_to_github(files_data, repo, branch, token)`.
The `repo` and `token` arguments only address the remote store (URL prefix and
auth header) and are absorbed into the oracle `Env`; `files_data` is the list
of `(file_path, repo_path)` pairs. The single `except Exception` clause turns
any exception raised in the body into the bulk error message; no exception
ever propagates to the caller. -/
def upload_bulk_to_github (fs : FS) (env : Env) (branch : String)
    (files_data : List (String × String)) : RunResult :=
  match upload_bulk_body fs env branch files_data with
  | (evs, msgs, ocs, .ok _) => ⟨evs, msgs, ocs, none⟩
  | (evs, msgs, ocs, .error e) =>
      ⟨evs, msgs ++ ["Error uploading files in bulk: " ++ e], ocs, some e⟩

/-- Name of a captured image file: `f'{roll_number}_{direction}_{count}.jpg'`. -/
def image_name (roll_number direction : String) (count : Nat) : String :=
  roll_number ++ "_" ++ direction ++ "_" ++ natStr count ++ ".jpg"

/-- POSIX `os.path.join(a, b)`: `b` when `b` is absolute, otherwise `a/b`
(the code always joins `'./temp_images'`, which has no trailing slash, with a
relative file name). -/
def path_join (a b : String) : String :=
  match b.data with
  | '/' :: _ => b
  | _ => a ++ "/" ++ b

/-- POSIX `os.path.basename(p)`: the part of `p` after its last `/`. -/
def basename (p : String) : String :=
  String.mk ((p.data.reverse.takeWhile (fun c => c != '/')).reverse)

/-- POSIX `os.path.dirname(p)`: the part of `p` before its last `/` (empty
when `p` holds no `/`). -/
def dirname (p : String) : String :=
  String.mk (((p.data.reverse.dropWhile (fun c => c != '/')).drop 1).reverse)

/-- Scratch path of one captured image:
`os.path.join(temp_path, f'{roll_number}_{direction}_{count}.jpg')`. -/
def local_image_path (temp_path roll_number direction : String) (count : Nat) : String :=
  path_join temp_path (image_name roll_number direction count)

/-- The capture loop of `capture_images`, by structural recursion on the
number of images still to take (the loop `while count < target` runs
`target - count` more iterations): write each accepted frame to its scratch
path and append that path, incrementing `count`. The top-level call takes
`target = min num_images available` images starting from `count = 0`
(`available` frames being what the camera yields). Returns the filesystem and
the accumulated `image_paths` list, in capture order. -/
def capture_loop (temp_path roll_number direction : String) (frames : Nat → Bytes) :
    Nat → Nat → FS → FS × List String
  | 0, _, fs => (fs, [])
  | k + 1, count, fs =>
    let fs1 := fs_write fs (local_image_path temp_path roll_number direction count) (frames count)
    match capture_loop temp_path roll_number direction frames k (count + 1) fs1 with
    | (fs2, rest) => (fs2, local_image_path temp_path roll_number direction count :: rest)

/-- The deletion loop after the bulk upload (`for local_image_path in
image_paths: os.remove(local_image_path)`): removes each path in order; a
raised `FileNotFoundError` stops the loop (it is caught by the enclosing
`except` of `capture_images`). -/
def removeAll : FS → List String → FS × Option String
  | fs, [] => (fs, none)
  | fs, p :: rest =>
    match os_remove fs p with
    | .ok fs1 => removeAll fs1 rest
    | .error e => (fs, some e)

/-- Observable result of one call to `capture_images`: the filesystem after
the deletion loop, the captured local paths, the `files_data` handed to the
bulk upload, the upload's result, and the exception text when the enclosing
`except` clause caught one. -/
structure CaptureResult where
  fs : FS
  image_paths : List String
  files_data : List (String × String)
  run : RunResult
  err : Option String
deriving DecidableEq

/-- The function `capture_images(roll_number, num_images, direction,
temp_path, repo, branch, token)`. The camera / face-mesh loop is abstracted
by `frames` (the bytes of each successive accepted frame) and `available`
(how many frames with a detected, correctly oriented face the camera yields
before the stream ends): the loop writes `min num_images available` images.
It then builds `files_data` — each local path paired with
`f'{roll_number}/{direction}/{os.path.basename(local_image_path)}'` — calls
`upload_bulk_to_github` on it, and deletes every captured image
unconditionally. All of this sits in one `try`; `upload_bulk_to_github`
never raises, so only the deletion loop can raise here, recorded in `err`. -/
def capture_images (fs : FS) (env : Env) (roll_number : String) (num_images : Nat)
    (direction temp_path branch : String) (frames : Nat → Bytes) (available : Nat) :
    CaptureResult :=
  let target := min num_images available
  match capture_loop temp_path roll_number direction frames target 0 fs with
  | (fs1, image_paths) =>
    let files_data := image_paths.map
      (fun local_image_path =>
        (local_image_path, roll_number ++ "/" ++ direction ++ "/" ++ basename local_image_path))
    let run := upload_bulk_to_github fs1 env branch files_data
    match removeAll fs1 image_paths with
    | (fs2, err) => ⟨fs2, image_paths, files_data, run, err⟩

/-- The scratch directory `'./temp_images'` used by `main`. -/
def temp_images_path : String := "./temp_images"

/-- Final cleanup of `main` (`for file in os.listdir(temp_path):
os.remove(os.path.join(temp_path, file))`): removes every file directly under
the scratch directory. (`os.rmdir` then removes the now-empty directory
itself, outside this file model.) -/
def session_cleanup (fs : FS) (temp_path : String) : FS :=
  fs.filter (fun q => decide (¬ dirname q.1 = temp_path))

/-- Observable result of one capture session (the `Start Capture` branch of
`main`): the final filesystem, the three `files_data` batches passed to the
three `upload_bulk_to_github` invocations, and the three upload results. -/
structure SessionResult where
  fs : FS
  batches : List (List (String × String))
  runs : List RunResult
deriving DecidableEq

/-- One capture session as driven by `main`: three `capture_images` calls —
front with 50 images, left with 25, right with 25 — over the shared scratch
directory, followed by the final cleanup. Each call performs its own bulk
upload of that category's files. -/
def main_session (fs0 : FS) (env : Env) (roll_number branch : String)
    (frames1 frames2 frames3 : Nat → Bytes) (a1 a2 a3 : Nat) : SessionResult :=
  let c1 := capture_images fs0 env roll_number 50 "front" temp_images_path branch frames1 a1
  let c2 := capture_images c1.fs env roll_number 25 "left" temp_images_path branch frames2 a2
  let c3 := capture_images c2.fs env roll_number 25 "right" temp_images_path branch frames3 a3
  ⟨session_cleanup c3.fs temp_images_path,
   [c1.files_data, c2.files_data, c3.files_data],
   [c1.run, c2.run, c3.run]⟩

/-- Did a GET return a response (as opposed to raising)? -/
def GetResult.isResp : GetResult → Bool
  | .resp _ _ => true
  | .raise _ => false

/-- Did a PUT return a response (as opposed to raising)? -/
def PutResult.isResp : PutResult → Bool
  | .resp _ _ => true
  | .raise _ => false

/-- Did a read return file contents (as opposed to raising)? -/
def isOkE : Except String Bytes → Bool
  | .ok _ => true
  | .error _ => false

/-- The commit body phase one assembles for one `(file_path, repo_path)` pair
whose read and GET both return normally (a junk body otherwise; only the
normal case is ever used under `phase1Ok`). -/
def commitFor (fs : FS) (env : Env) (branch : String) (fd : String × String) : CommitData :=
  match fs_read fs fd.1, env.httpGet fd.2 with
  | .ok content, .resp status sha =>
    if status = 200 then ⟨"Update " ++ fd.2, b64encodeStr content, branch, some sha⟩
    else ⟨"Add " ++ fd.2, b64encodeStr content, branch, none⟩
  | _, _ => ⟨"", "", branch, none⟩

/-- The outcome the upload loop produces for one commit whose PUT returns a
response (a junk outcome otherwise; only the normal case is ever used under
`phase2Ok`). -/
def outcomeFor (env : Env) (c : String × CommitData) : SyncOutcome :=
  match env.httpPut c.1 c.2 with
  | .resp status body =>
    if status = 201 then ⟨c.1, .Created, "Successfully uploaded " ++ c.1⟩
    else if status = 200 then ⟨c.1, .Updated, "Successfully updated " ++ c.1⟩
    else ⟨c.1, .Failed, "Failed to upload " ++ c.1 ++ ": " ++ body⟩
  | .raise _ => ⟨c.1, .Failed, ""⟩

/-- Phase one raises nothing: every local read and every GET of the batch
returns normally. -/
def phase1Ok (fs : FS) (env : Env) (files : List (String × String)) : Prop :=
  ∀ fd ∈ files, isOkE (fs_read fs fd.1) = true ∧ (env.httpGet fd.2).isResp = true

/-- Phase two raises nothing: every PUT of the assembled commits returns a
response (of any status — failures may still be signalled by the status). -/
def phase2Ok (env : Env) (commits : List (String × CommitData)) : Prop :=
  ∀ c ∈ commits, (env.httpPut c.1 c.2).isResp = true

/-- No operation of the whole batch raises: phase one returns normally and
every PUT of the commit each file gives rise to returns a response. -/
def NoRaise (fs : FS) (env : Env) (branch : String) (files : List (String × String)) : Prop :=
  phase1Ok fs env files ∧
    ∀ fd ∈ files, (env.httpPut fd.2 (commitFor fs env branch fd)).isResp = true

instance (fs : FS) (env : Env) (files : List (String × String)) :
    Decidable (phase1Ok fs env files) :=
  inferInstanceAs (Decidable (∀ fd ∈ files,
    isOkE (fs_read fs fd.1) = true ∧ (env.httpGet fd.2).isResp = true))

instance (env : Env) (commits : List (String × CommitData)) :
    Decidable (phase2Ok env commits) :=
  inferInstanceAs (Decidable (∀ c ∈ commits, (env.httpPut c.1 c.2).isResp = true))

instance (fs : FS) (env : Env) (branch : String) (files : List (String × String)) :
    Decidable (NoRaise fs env branch files) :=
  inferInstanceAs (Decidable (phase1Ok fs env files ∧
    ∀ fd ∈ files, (env.httpPut fd.2 (commitFor fs env branch fd)).isResp = true))

/-- Destination path of a captured image in the remote store, in the format
the specification declares for `logical_path`:
`{subject_id}/{category}/{subject_id}_{category}_{sequence}.jpg`. -/
def repoPath (roll_number direction : String) (count : Nat) : String :=
  roll_number ++ "/" ++ direction ++ "/" ++ image_name roll_number direction count

/-- Destination paths of one category's captured images, sequences `0..k-1`. -/
def category_paths (roll_number direction : String) (k : Nat) : List String :=
  (List.range k).map (repoPath roll_number direction)

/-- Destination paths of a full session: front 50, left 25, right 25. -/
def session_logical_paths (roll_number : String) : List String :=
  category_paths roll_number "front" 50 ++ category_paths roll_number "left" 25 ++
    category_paths roll_number "right" 25

/-- Frame source producing empty images (contents are irrelevant to the
properties under study). -/
def zeroFrames : Nat → Bytes := fun _ => []

/-- Remote store on which every path is absent and every write succeeds as a
creation. -/
def envAllNew : Env := ⟨fun _ => .resp 404 "", fun _ _ => .resp 201 ""⟩

/-- Remote store on which every path is absent and every write is rejected
with a 422 status (a failure signalled by status, not by an exception). -/
def envRejectPut : Env := ⟨fun _ => .resp 404 "", fun _ _ => .resp 422 "Unprocessable"⟩

/-- Remote store on which every path is absent and every PUT raises a
transport exception. -/
def envPutRaise : Env := ⟨fun _ => .resp 404 "", fun _ _ => .raise "ConnectionError"⟩

/-- Remote store on which every GET raises a transport exception. -/
def envGetRaise : Env := ⟨fun _ => .raise "ConnectionError", fun _ _ => .resp 201 ""⟩

/-- Remote store on which the first captured front image's PUT raises a
transport exception while every other request succeeds. -/
def envFirstPutRaises : Env :=
  ⟨fun _ => .resp 404 "",
   fun p _ => if p = "S1/front/S1_front_0.jpg" then .raise "ConnectionError"
              else .resp 201 ""⟩

/-- Remote store that already holds `S1/front/S1_front_1.jpg` at version
`abc` and nothing else; writes succeed (201 for creations, 200 for the
update). -/
def envOneExisting : Env :=
  ⟨fun p => if p = "S1/front/S1_front_1.jpg" then .resp 200 "abc" else .resp 404 "",
   fun p _ => if p = "S1/front/S1_front_1.jpg" then .resp 200 "body" else .resp 201 "body"⟩

/-- Two captured front images sitting in the scratch area. -/
def fsTwoFront : FS :=
  [("./temp_images/S1_front_0.jpg", []), ("./temp_images/S1_front_1.jpg", [])]

/-- The `files_data` the code builds for the two images of `fsTwoFront`. -/
def filesTwoFront : List (String × String) :=
  [("./temp_images/S1_front_0.jpg", "S1/front/S1_front_0.jpg"),
   ("./temp_images/S1_front_1.jpg", "S1/front/S1_front_1.jpg")]

/-- Remote store on which every path is absent, the first front image's PUT
is rejected with a 422 status, and every other PUT succeeds with 201. -/
def envMixed : Env :=
  ⟨fun _ => .resp 404 "",
   fun p _ => if p = "S1/front/S1_front_0.jpg" then .resp 422 "Unprocessable"
              else .resp 201 ""⟩

/-- Remote store on which every path is absent, the second front image's PUT
raises a transport exception, and every other PUT succeeds with 201. -/
def envLastPutRaises : Env :=
  ⟨fun _ => .resp 404 "",
   fun p _ => if p = "S1/front/S1_front_1.jpg" then .raise "ConnectionError"
              else .resp 201 ""⟩

/-- A sample commit body (creation of the first front image, empty content). -/
def commitSample : CommitData :=
  ⟨"Add S1/front/S1_front_0.jpg", "", "main", none⟩

/-- A second sample commit body (creation of the second front image). -/
def commitSample2 : CommitData :=
  ⟨"Add S1/front/S1_front_1.jpg", "", "main", none⟩

/-! Decimal rendering: `natStr` is injective and never produces a slash. -/

theorem digitsVal_natDigitsAux :
    ∀ (fuel n : Nat), n ≤ fuel → digitsVal (natDigitsAux fuel n) = n := by
  intro fuel
  induction fuel with
  | zero =>
    intro n h
    have : n = 0 := by omega
    subst this
    simp [natDigitsAux, digitsVal]
  | succ fuel ih =>
    intro n h
    rw [natDigitsAux]
    split
    · simp [digitsVal]
    · rename_i h10
      have hdiv : n / 10 ≤ fuel := by
        have := Nat.div_lt_self (show 0 < n by omega) (show 1 < 10 by omega)
        omega
      have hv := ih (n / 10) hdiv
      simp only [digitsVal] at hv ⊢
      rw [List.foldl_append]
      simp only [List.foldl_cons, List.foldl_nil, hv]
      omega

theorem natDigitsAux_lt :
    ∀ (fuel n : Nat), n ≤ fuel → ∀ d ∈ natDigitsAux fuel n, d < 10 := by
  intro fuel
  induction fuel with
  | zero =>
    intro n h d hd
    simp [natDigitsAux] at hd
    omega
  | succ fuel ih =>
    intro n h d hd
    rw [natDigitsAux] at hd
    split at hd
    · rename_i h10
      simp at hd
      omega
    · rename_i h10
      rw [List.mem_append] at hd
      rcases hd with hd | hd
      · have hdiv : n / 10 ≤ fuel := by
          have := Nat.div_lt_self (show 0 < n by omega) (show 1 < 10 by omega)
          omega
        exact ih (n / 10) hdiv d hd
      · simp at hd
        omega

theorem digitsVal_natDigits (n : Nat) : digitsVal (natDigits n) = n :=
  digitsVal_natDigitsAux n n (Nat.le_refl n)

theorem natDigits_lt (n : Nat) : ∀ d ∈ natDigits n, d < 10 :=
  natDigitsAux_lt n n (Nat.le_refl n)

theorem natDigits_inj {a b : Nat} (h : natDigits a = natDigits b) : a = b := by
  have ha := digitsVal_natDigits a
  rw [h, digitsVal_natDigits b] at ha
  omega

theorem digitChar_inj_fin : ∀ a b : Fin 10, Nat.digitChar a.val = Nat.digitChar b.val → a = b := by
  decide

theorem digitChar_inj {a b : Nat} (ha : a < 10) (hb : b < 10)
    (h : Nat.digitChar a = Nat.digitChar b) : a = b := by
  simpa using congrArg Fin.val (digitChar_inj_fin ⟨a, ha⟩ ⟨b, hb⟩ h)

theorem map_digitChar_inj : ∀ {l₁ l₂ : List Nat}, (∀ d ∈ l₁, d < 10) → (∀ d ∈ l₂, d < 10) →
    l₁.map Nat.digitChar = l₂.map Nat.digitChar → l₁ = l₂ := by
  intro l₁
  induction l₁ with
  | nil =>
    intro l₂ _ _ h
    cases l₂ <;> simp_all
  | cons a t ih =>
    intro l₂ h1 h2 h
    cases l₂ with
    | nil => simp_all
    | cons b t₂ =>
      simp only [List.map_cons, List.cons.injEq] at h
      have hab := digitChar_inj (h1 a (by simp)) (h2 b (by simp)) h.1
      subst hab
      have ht := ih (fun d hd => h1 d (by simp [hd])) (fun d hd => h2 d (by simp [hd])) h.2
      simp [ht]

theorem natStr_inj {a b : Nat} (h : natStr a = natStr b) : a = b := by
  have hd : (natDigits a).map Nat.digitChar = (natDigits b).map Nat.digitChar := by
    simpa [natStr] using congrArg String.data h
  exact natDigits_inj (map_digitChar_inj (natDigits_lt a) (natDigits_lt b) hd)

theorem digitChar_ne_slash : ∀ d : Fin 10, Nat.digitChar d.val ≠ '/' := by decide

theorem natStr_no_slash (n : Nat) : '/' ∉ (natStr n).data := by
  intro hmem
  simp only [natStr, List.mem_map] at hmem
  obtain ⟨d, hd, hc⟩ := hmem
  exact digitChar_ne_slash ⟨d, natDigits_lt n d hd⟩ hc

/-! Filesystem lemmas: reading after writing, erasing, and removing. -/

theorem fs_read_write_self (fs : FS) (p : String) (b : Bytes) :
    fs_read (fs_write fs p b) p = .ok b := by
  simp [fs_write, fs_read]

theorem fs_read_erase_self (fs : FS) (p : String) :
    fs_read (fs_erase fs p) p = .error ("FileNotFoundError: " ++ p) := by
  induction fs with
  | nil => simp [fs_erase, fs_read]
  | cons a t ih =>
    by_cases ha : a.1 = p
    · simp [fs_erase, ha, ih]
    · simp [fs_erase, ha, fs_read, ih]

theorem fs_read_erase_other {q p : String} (h : ¬ q = p) (fs : FS) :
    fs_read (fs_erase fs q) p = fs_read fs p := by
  induction fs with
  | nil => simp [fs_erase]
  | cons a t ih =>
    have hpq : ¬ p = q := fun hh => h hh.symm
    by_cases ha : a.1 = q
    · have hap : ¬ a.1 = p := by rw [ha]; exact h
      simp [fs_erase, ha, fs_read, hap, h, ih]
    · by_cases hap : a.1 = p
      · simp [fs_erase, ha, fs_read, hap, hpq]
      · simp [fs_erase, ha, fs_read, hap, ih]

theorem fs_has_erase_self (fs : FS) (p : String) : fs_has (fs_erase fs p) p = false := by
  simp [fs_has, fs_read_erase_self]

theorem fs_has_erase_other {q p : String} (h : ¬ q = p) (fs : FS) :
    fs_has (fs_erase fs q) p = fs_has fs p := by
  simp [fs_has, fs_read_erase_other h]

theorem fs_has_write_self (fs : FS) (p : String) (b : Bytes) :
    fs_has (fs_write fs p b) p = true := by
  simp [fs_has, fs_read_write_self]

theorem fs_has_write_other {q p : String} (h : ¬ q = p) (fs : FS) (b : Bytes) :
    fs_has (fs_write fs q b) p = fs_has fs p := by
  simp [fs_has, fs_write, fs_read, h, fs_read_erase_other h]

theorem os_remove_of_has {fs : FS} {p : String} (h : fs_has fs p = true) :
    os_remove fs p = .ok (fs_erase fs p) := by
  simp [os_remove, h]

theorem os_remove_of_not_has {fs : FS} {p : String} (h : fs_has fs p = false) :
    os_remove fs p = .error ("FileNotFoundError: " ++ p) := by
  simp [os_remove, h]

/-! The deletion loop: once every listed path is present and the list holds no
duplicates, the loop raises nothing and afterwards none of the paths exist. -/

theorem removeAll_absent {p : String} : ∀ (ps : List String) (fs : FS),
    fs_has fs p = false → fs_has (removeAll fs ps).1 p = false := by
  intro ps
  induction ps with
  | nil =>
    intro fs h
    simpa [removeAll]
  | cons q t ih =>
    intro fs h
    simp only [removeAll]
    by_cases hq : fs_has fs q = true
    · rw [os_remove_of_has hq]
      apply ih
      by_cases hqp : q = p
      · subst hqp; exact fs_has_erase_self fs q
      · rw [fs_has_erase_other hqp]; exact h
    · rw [os_remove_of_not_has (by simpa using hq)]
      exact h

theorem removeAll_spec : ∀ (ps : List String) (fs : FS), ps.Nodup →
    (∀ p ∈ ps, fs_has fs p = true) →
    (removeAll fs ps).2 = none ∧ ∀ p ∈ ps, fs_has (removeAll fs ps).1 p = false := by
  intro ps
  induction ps with
  | nil =>
    intro fs _ _
    simp [removeAll]
  | cons q t ih =>
    intro fs hnd hall
    have hq : fs_has fs q = true := hall q (by simp)
    have hqt : q ∉ t := (List.nodup_cons.1 hnd).1
    have htall : ∀ p ∈ t, fs_has (fs_erase fs q) p = true := by
      intro p hp
      have hqp : ¬ q = p := fun h => hqt (h ▸ hp)
      rw [fs_has_erase_other hqp]
      exact hall p (by simp [hp])
    obtain ⟨hnone, habs⟩ := ih (fs_erase fs q) (List.nodup_cons.1 hnd).2 htall
    refine ⟨?_, ?_⟩
    · simp only [removeAll, os_remove_of_has hq]
      exact hnone
    · intro p hp
      simp only [removeAll, os_remove_of_has hq]
      rcases List.mem_cons.1 hp with hpq | hpt
      · subst hpq
        exact removeAll_absent t (fs_erase fs p) (fs_has_erase_self fs p)
      · exact habs p hpt

/-! Path lemmas: how `os.path.join` and `os.path.basename` behave on the
names the capture loop generates, and injectivity of those names. -/

theorem data_slash : ("/" : String).data = ['/'] := rfl

theorem data_underscore : ("_" : String).data = ['_'] := rfl

theorem image_name_data (r d : String) (c : Nat) :
    (image_name r d c).data =
      r.data ++ '_' :: (d.data ++ '_' :: ((natStr c).data ++ ".jpg".data)) := by
  simp [image_name, String.data_append, data_underscore]

theorem image_name_inj {r d : String} {c₁ c₂ : Nat}
    (h : image_name r d c₁ = image_name r d c₂) : c₁ = c₂ := by
  have h0 := congrArg String.data h
  rw [image_name_data, image_name_data] at h0
  have h1 := List.append_cancel_left h0
  simp only [List.cons.injEq, true_and] at h1
  have h2 := List.append_cancel_left h1
  simp only [List.cons.injEq, true_and] at h2
  exact natStr_inj (String.ext (List.append_cancel_right h2))

theorem image_name_head (r d : String) (c : Nat) :
    (image_name r d c).data.head? = (r.data ++ ['_']).head? := by
  rw [image_name_data]
  cases r.data <;> simp

theorem image_name_no_slash {r d : String} (hr : '/' ∉ r.data) (hd : '/' ∉ d.data)
    (c : Nat) : '/' ∉ (image_name r d c).data := by
  rw [image_name_data]
  intro hmem
  rw [List.mem_append] at hmem
  rcases hmem with hmem | hmem
  · exact hr hmem
  · rw [List.mem_cons] at hmem
    rcases hmem with hmem | hmem
    · exact absurd hmem (by decide)
    · rw [List.mem_append] at hmem
      rcases hmem with hmem | hmem
      · exact hd hmem
      · rw [List.mem_cons] at hmem
        rcases hmem with hmem | hmem
        · exact absurd hmem (by decide)
        · rw [List.mem_append] at hmem
          rcases hmem with hmem | hmem
          · exact natStr_no_slash c hmem
          · exact absurd hmem (by decide)

theorem path_join_rel {b : String} (hb : b.data.head? ≠ some '/') (a : String) :
    path_join a b = a ++ "/" ++ b := by
  rcases hbd : b.data with _ | ⟨c, l⟩
  · simp only [path_join, hbd]
  · have hc : c ≠ '/' := by
      intro hc
      exact hb (by rw [hbd, hc]; rfl)
    simp only [path_join, hbd]
    split
    · rename_i heq
      simp at heq
      exact absurd heq.1 hc
    · rfl

theorem path_join_abs {b : String} (hb : b.data.head? = some '/') (a : String) :
    path_join a b = b := by
  rcases hbd : b.data with _ | ⟨c, l⟩
  · rw [hbd] at hb; simp at hb
  · have hc : c = '/' := by rw [hbd] at hb; simpa using hb
    subst hc
    simp only [path_join, hbd]

theorem takeWhile_append_stop {p : Char → Bool} :
    ∀ (l₁ : List Char) (c : Char) (l₂ : List Char),
      (∀ x ∈ l₁, p x = true) → p c = false →
      (l₁ ++ c :: l₂).takeWhile p = l₁ := by
  intro l₁
  induction l₁ with
  | nil =>
    intro c l₂ _ hc
    simp [List.takeWhile_cons, hc]
  | cons a t ih =>
    intro c l₂ h hc
    have ha : p a = true := h a (by simp)
    simp only [List.cons_append, List.takeWhile_cons, ha, if_true]
    rw [ih c l₂ (fun x hx => h x (by simp [hx])) hc]

theorem basename_append {b : String} (hb : '/' ∉ b.data) (a : String) :
    basename (a ++ "/" ++ b) = b := by
  have hrev : (a ++ "/" ++ b).data.reverse = b.data.reverse ++ '/' :: a.data.reverse := by
    simp [String.data_append, data_slash, List.reverse_append]
  simp only [basename, hrev]
  rw [takeWhile_append_stop _ '/' _ ?_ (by decide)]
  · simp
  · intro x hx
    have hxb : x ∈ b.data := by simpa using hx
    have : ¬ x = '/' := fun h => hb (h ▸ hxb)
    simpa using this

theorem local_image_path_inj {t r d : String} {c₁ c₂ : Nat}
    (h : local_image_path t r d c₁ = local_image_path t r d c₂) : c₁ = c₂ := by
  unfold local_image_path at h
  by_cases hh : (r.data ++ ['_']).head? = some '/'
  · rw [path_join_abs (by rw [image_name_head]; exact hh),
        path_join_abs (by rw [image_name_head]; exact hh)] at h
    exact image_name_inj h
  · rw [path_join_rel (by rw [image_name_head]; exact hh),
        path_join_rel (by rw [image_name_head]; exact hh)] at h
    have h0 := congrArg String.data h
    simp only [String.data_append] at h0
    exact image_name_inj (String.ext (List.append_cancel_left h0))

theorem basename_local {r d : String} (hr : '/' ∉ r.data) (hd : '/' ∉ d.data)
    (t : String) (c : Nat) :
    basename (local_image_path t r d c) = image_name r d c := by
  have hhead : (image_name r d c).data.head? ≠ some '/' := by
    rw [image_name_head]
    rcases hdd : r.data with _ | ⟨ch, l⟩
    · simp
    · have : ch ≠ '/' := by
        intro hc
        exact hr (by rw [hdd, hc]; simp)
      simpa using this
  rw [local_image_path, path_join_rel hhead]
  exact basename_append (image_name_no_slash hr hd c) t

/-! Capture-loop lemmas: which paths it produces, and that they are all
present afterwards, distinct, and written in sequence order. -/

theorem fs_read_write_other {q p : String} (h : ¬ q = p) (fs : FS) (b : Bytes) :
    fs_read (fs_write fs q b) p = fs_read fs p := by
  simp [fs_write, fs_read, h, fs_read_erase_other h]

theorem capture_loop_paths (t r d : String) (frames : Nat → Bytes) :
    ∀ (k count : Nat) (fs : FS),
      (capture_loop t r d frames k count fs).2 =
        (List.range' count k).map (local_image_path t r d) := by
  intro k
  induction k with
  | zero =>
    intro count fs
    simp [capture_loop]
  | succ k ih =>
    intro count fs
    rw [capture_loop]
    rcases hcl : capture_loop t r d frames k (count + 1)
        (fs_write fs (local_image_path t r d count) (frames count)) with ⟨fs2, rest⟩
    have hr := ih (count + 1) (fs_write fs (local_image_path t r d count) (frames count))
    rw [hcl] at hr
    simp only at hr
    simp only [hcl, List.range']
    simp [hr]

theorem capture_loop_read_other (t r d : String) (frames : Nat → Bytes) :
    ∀ (k count : Nat) (fs : FS) (p : String),
      (∀ c, count ≤ c → c < count + k → ¬ p = local_image_path t r d c) →
      fs_read (capture_loop t r d frames k count fs).1 p = fs_read fs p := by
  intro k
  induction k with
  | zero =>
    intro count fs p _
    simp [capture_loop]
  | succ k ih =>
    intro count fs p h
    rw [capture_loop]
    rcases hcl : capture_loop t r d frames k (count + 1)
        (fs_write fs (local_image_path t r d count) (frames count)) with ⟨fs2, rest⟩
    have hr := ih (count + 1) (fs_write fs (local_image_path t r d count) (frames count)) p
      (fun c hc1 hc2 => h c (by omega) (by omega))
    rw [hcl] at hr
    simp only [hcl, hr]
    exact fs_read_write_other (fun he => h count (by omega) (by omega) he.symm) fs (frames count)

theorem capture_loop_has (t r d : String) (frames : Nat → Bytes) :
    ∀ (k count : Nat) (fs : FS) (c : Nat), count ≤ c → c < count + k →
      fs_has (capture_loop t r d frames k count fs).1
        (local_image_path t r d c) = true := by
  intro k
  induction k with
  | zero =>
    intro count fs c hc1 hc2
    omega
  | succ k ih =>
    intro count fs c hc1 hc2
    rw [capture_loop]
    rcases hcl : capture_loop t r d frames k (count + 1)
        (fs_write fs (local_image_path t r d count) (frames count)) with ⟨fs2, rest⟩
    simp only [hcl]
    by_cases hcc : c = count
    · subst hcc
      have hother : ∀ c', c + 1 ≤ c' → c' < c + 1 + k →
          ¬ local_image_path t r d c = local_image_path t r d c' := by
        intro c' h1 h2 heq
        have := local_image_path_inj heq
        omega
      have hpres := capture_loop_read_other t r d frames k (c + 1)
        (fs_write fs (local_image_path t r d c) (frames c)) (local_image_path t r d c) hother
      rw [hcl] at hpres
      simp [fs_has, hpres, fs_read_write_self]
    · have := ih (count + 1) (fs_write fs (local_image_path t r d count) (frames count)) c
        (by omega) (by omega)
      rw [hcl] at this
      exact this

theorem local_image_paths_nodup (t r d : String) (k : Nat) :
    ((List.range k).map (local_image_path t r d)).Nodup :=
  (List.nodup_range k).map_on
    (fun c₁ _ c₂ _ h => local_image_path_inj h)

/-! Structure of a `capture_images` run. -/

theorem capture_images_eq (fs : FS) (env : Env) (roll : String) (n : Nat)
    (d temp branch : String) (frames : Nat → Bytes) (a : Nat) :
    capture_images fs env roll n d temp branch frames a =
      ⟨(removeAll (capture_loop temp roll d frames (min n a) 0 fs).1
          ((List.range (min n a)).map (local_image_path temp roll d))).1,
       (List.range (min n a)).map (local_image_path temp roll d),
       ((List.range (min n a)).map (local_image_path temp roll d)).map
         (fun p => (p, roll ++ "/" ++ d ++ "/" ++ basename p)),
       upload_bulk_to_github (capture_loop temp roll d frames (min n a) 0 fs).1 env branch
         (((List.range (min n a)).map (local_image_path temp roll d)).map
           (fun p => (p, roll ++ "/" ++ d ++ "/" ++ basename p))),
       (removeAll (capture_loop temp roll d frames (min n a) 0 fs).1
          ((List.range (min n a)).map (local_image_path temp roll d))).2⟩ := by
  have hp := capture_loop_paths temp roll d frames (min n a) 0 fs
  rw [List.range_eq_range']
  unfold capture_images
  rcases hcl : capture_loop temp roll d frames (min n a) 0 fs with ⟨fs1, ips⟩
  rw [hcl] at hp
  simp only at hp
  subst hp
  rcases hra : removeAll fs1 ((List.range' 0 (min n a)).map (local_image_path temp roll d))
    with ⟨fs2, err⟩
  simp [hcl, hra]

theorem capture_images_paths (fs : FS) (env : Env) (roll : String) (n : Nat)
    (d temp branch : String) (frames : Nat → Bytes) (a : Nat) :
    (capture_images fs env roll n d temp branch frames a).image_paths =
      (List.range (min n a)).map (local_image_path temp roll d) := by
  rw [capture_images_eq]

theorem capture_images_files_map {roll d : String} (hr : '/' ∉ roll.data)
    (hd : '/' ∉ d.data) (fs : FS) (env : Env) (n : Nat) (temp branch : String)
    (frames : Nat → Bytes) (a : Nat) :
    (capture_images fs env roll n d temp branch frames a).files_data =
      (List.range (min n a)).map
        (fun c => (local_image_path temp roll d c, repoPath roll d c)) := by
  rw [capture_images_eq]
  simp only [List.map_map]
  apply List.map_congr_left
  intro c _
  simp [Function.comp, basename_local hr hd, repoPath]

theorem capture_images_cleanup (fs : FS) (env : Env) (roll : String) (n : Nat)
    (d temp branch : String) (frames : Nat → Bytes) (a : Nat) :
    (capture_images fs env roll n d temp branch frames a).err = none ∧
      ∀ p ∈ (capture_images fs env roll n d temp branch frames a).image_paths,
        fs_has (capture_images fs env roll n d temp branch frames a).fs p = false := by
  rw [capture_images_eq]
  have hnodup := local_image_paths_nodup temp roll d (min n a)
  have hall : ∀ p ∈ (List.range (min n a)).map (local_image_path temp roll d),
      fs_has (capture_loop temp roll d frames (min n a) 0 fs).1 p = true := by
    intro p hp
    rw [List.mem_map] at hp
    obtain ⟨c, hc, rfl⟩ := hp
    rw [List.mem_range] at hc
    have := capture_loop_has temp roll d frames (min n a) 0 fs c (by omega) (by omega)
    simpa using this
  obtain ⟨h1, h2⟩ := removeAll_spec _ _ hnodup hall
  exact ⟨h1, h2⟩

/-! Upload lemmas: what each phase does when nothing raises, what it does at
the first raise, and the shape of the event trace. -/

theorem buildCommits_spec (fs : FS) (env : Env) (branch : String) :
    ∀ files : List (String × String), phase1Ok fs env files →
      ∃ evs msgs, buildCommits fs env branch files =
        (evs, msgs, .ok (files.map (fun fd => (fd.2, commitFor fs env branch fd)))) ∧
        ∀ ev ∈ evs, ev.isPut = false := by
  intro files
  induction files with
  | nil =>
    intro _
    exact ⟨[], [], rfl, by simp⟩
  | cons fd rest ih =>
    intro h
    rcases fd with ⟨fp, rp⟩
    obtain ⟨hread, hget⟩ := h (fp, rp) (by simp)
    obtain ⟨content, hc⟩ : ∃ content, fs_read fs fp = .ok content := by
      have hread2 : isOkE (fs_read fs fp) = true := hread
      rcases hr : fs_read fs fp with e | b
      · rw [hr] at hread2
        simp [isOkE] at hread2
      · exact ⟨b, rfl⟩
    obtain ⟨st, sha, hg⟩ : ∃ st sha, env.httpGet rp = .resp st sha := by
      have hget2 : (env.httpGet rp).isResp = true := hget
      rcases hr : env.httpGet rp with ⟨st, sha⟩ | e
      · exact ⟨st, sha, rfl⟩
      · rw [hr] at hget2
        simp [GetResult.isResp] at hget2
    obtain ⟨evs, msgs, hrec, hnp⟩ := ih (fun x hx => h x (List.mem_cons_of_mem _ hx))
    refine ⟨Event.fileRead fp :: Event.httpGet rp :: evs,
      (if st = 200 then "Updating " ++ rp ++ "..." else "Adding " ++ rp ++ "...") :: msgs,
      ?_, ?_⟩
    · simp only [buildCommits, hc, hg, hrec]
      simp [commitFor, hc, hg]
    · intro ev hev
      rcases List.mem_cons.1 hev with rfl | hev
      · rfl
      · rcases List.mem_cons.1 hev with rfl | hev
        · rfl
        · exact hnp ev hev

theorem buildCommits_no_put (fs : FS) (env : Env) (branch : String) :
    ∀ files, ∀ ev ∈ (buildCommits fs env branch files).1, ev.isPut = false := by
  intro files
  induction files with
  | nil =>
    intro ev hev
    simp [buildCommits] at hev
  | cons fd rest ih =>
    rcases fd with ⟨fp, rp⟩
    intro ev hev
    simp only [buildCommits] at hev
    rcases hr : fs_read fs fp with e | content
    · rw [hr] at hev
      simp at hev
      subst hev
      rfl
    · rw [hr] at hev
      rcases hg : env.httpGet rp with ⟨st, sha⟩ | e
      · rw [hg] at hev
        rcases hrec : buildCommits fs env branch rest with ⟨evs, msgs, res⟩
        rw [hrec] at hev
        simp only [List.mem_cons] at hev
        rcases hev with rfl | rfl | hev
        · rfl
        · rfl
        · have := ih ev
          rw [hrec] at this
          exact this hev
      · rw [hg] at hev
        simp at hev
        rcases hev with rfl | rfl
        · rfl
        · rfl

theorem runUploads_spec (env : Env) :
    ∀ commits : List (String × CommitData), phase2Ok env commits →
      runUploads env commits =
        (commits.map (fun c => Event.httpPut c.1 c.2),
         commits.flatMap (fun c => [(outcomeFor env c).detail, ""]),
         commits.map (outcomeFor env), .ok ()) := by
  intro commits
  induction commits with
  | nil =>
    intro _
    rfl
  | cons c rest ih =>
    intro h
    rcases c with ⟨rp, cd⟩
    obtain ⟨st, body, hput⟩ : ∃ st body, env.httpPut rp cd = .resp st body := by
      have hc : (env.httpPut rp cd).isResp = true := h (rp, cd) (by simp)
      rcases hp : env.httpPut rp cd with ⟨st, body⟩ | e
      · exact ⟨st, body, rfl⟩
      · rw [hp] at hc
        simp [PutResult.isResp] at hc
    have hrec := ih (fun x hx => h x (by simp [hx]))
    simp only [runUploads, hput, hrec, outcomeFor]
    simp [outcomeFor, hput, hrec]

theorem runUploads_raise (env : Env) (e : String) (rp : String) (cd : CommitData)
    (he : env.httpPut rp cd = .raise e) :
    ∀ (c₁ : List (String × CommitData)) (c₂ : List (String × CommitData)), phase2Ok env c₁ →
      runUploads env (c₁ ++ (rp, cd) :: c₂) =
        (c₁.map (fun x => Event.httpPut x.1 x.2) ++ [Event.httpPut rp cd],
         c₁.flatMap (fun x => [(outcomeFor env x).detail, ""]),
         c₁.map (outcomeFor env), .error e) := by
  intro c₁
  induction c₁ with
  | nil =>
    intro c₂ _
    simp only [List.nil_append, runUploads, he]
    simp
  | cons x rest ih =>
    intro c₂ h
    rcases x with ⟨xp, xd⟩
    obtain ⟨st, body, hput⟩ : ∃ st body, env.httpPut xp xd = .resp st body := by
      have hc : (env.httpPut xp xd).isResp = true := h (xp, xd) (by simp)
      rcases hp : env.httpPut xp xd with ⟨st, body⟩ | e2
      · exact ⟨st, body, rfl⟩
      · rw [hp] at hc
        simp [PutResult.isResp] at hc
    have hrec := ih c₂ (fun y hy => h y (by simp [hy]))
    simp only [List.cons_append, runUploads, hput, hrec, outcomeFor]
    simp [outcomeFor, hput, hrec]

theorem runUploads_all_put (env : Env) :
    ∀ commits, ∀ ev ∈ (runUploads env commits).1, ev.isPut = true := by
  intro commits
  induction commits with
  | nil =>
    intro ev hev
    simp [runUploads] at hev
  | cons c rest ih =>
    rcases c with ⟨rp, cd⟩
    intro ev hev
    simp only [runUploads] at hev
    rcases hp : env.httpPut rp cd with ⟨st, body⟩ | e
    · rw [hp] at hev
      rcases hrec : runUploads env rest with ⟨evs, msgs, ocs, res⟩
      rw [hrec] at hev
      simp only [List.mem_cons] at hev
      rcases hev with rfl | hev
      · rfl
      · have := ih ev
        rw [hrec] at this
        exact this hev
    · rw [hp] at hev
      simp at hev
      subst hev
      rfl

theorem runUploads_put_src (env : Env) :
    ∀ commits, ∀ ev ∈ (runUploads env commits).1,
      ∃ c ∈ commits, ev = Event.httpPut c.1 c.2 := by
  intro commits
  induction commits with
  | nil =>
    intro ev hev
    simp [runUploads] at hev
  | cons c rest ih =>
    rcases c with ⟨rp, cd⟩
    intro ev hev
    simp only [runUploads] at hev
    rcases hp : env.httpPut rp cd with ⟨st, body⟩ | e
    · rw [hp] at hev
      rcases hrec : runUploads env rest with ⟨evs, msgs, ocs, res⟩
      rw [hrec] at hev
      simp only [List.mem_cons] at hev
      rcases hev with rfl | hev
      · exact ⟨(rp, cd), by simp⟩
      · have := ih ev
        rw [hrec] at this
        obtain ⟨c, hc, rfl⟩ := this hev
        exact ⟨c, by simp [hc]⟩
    · rw [hp] at hev
      simp at hev
      subst hev
      exact ⟨(rp, cd), by simp⟩

theorem upload_bulk_spec {fs : FS} {env : Env} {branch : String}
    {files : List (String × String)} (h : NoRaise fs env branch files) :
    ∃ evs1 msgs,
      upload_bulk_to_github fs env branch files =
        ⟨evs1 ++ files.map (fun fd => Event.httpPut fd.2 (commitFor fs env branch fd)),
         msgs,
         files.map (fun fd => outcomeFor env (fd.2, commitFor fs env branch fd)),
         none⟩ ∧ ∀ ev ∈ evs1, ev.isPut = false := by
  obtain ⟨h1, h2⟩ := h
  obtain ⟨evs, msgs1, hbc, hnp⟩ := buildCommits_spec fs env branch files h1
  have hp2 : phase2Ok env (files.map (fun fd => (fd.2, commitFor fs env branch fd))) := by
    intro c hc
    rw [List.mem_map] at hc
    obtain ⟨fd, hfd, rfl⟩ := hc
    exact h2 fd hfd
  have hru := runUploads_spec env _ hp2
  refine ⟨evs, msgs1 ++ (files.map (fun fd => (fd.2, commitFor fs env branch fd))).flatMap
      (fun c => [(outcomeFor env c).detail, ""]), ?_, hnp⟩
  simp only [upload_bulk_to_github, upload_bulk_body, hbc, hru]
  simp [List.map_map, Function.comp]

/-! Logical-path distinctness: within a category by sequence injectivity,
across categories by their distinct leading characters. -/

theorem repoPath_data (r d : String) (c : Nat) :
    (repoPath r d c).data = r.data ++ '/' :: (d.data ++ '/' :: (image_name r d c).data) := by
  simp [repoPath, String.data_append, data_slash]

theorem repoPath_inj_same {r d : String} {c₁ c₂ : Nat}
    (h : repoPath r d c₁ = repoPath r d c₂) : c₁ = c₂ := by
  have h0 := congrArg String.data h
  rw [repoPath_data, repoPath_data] at h0
  have h1 := List.append_cancel_left h0
  simp only [List.cons.injEq, true_and] at h1
  have h2 := List.append_cancel_left h1
  simp only [List.cons.injEq, true_and] at h2
  exact image_name_inj (String.ext h2)

theorem repoPath_ne_diff {r d₁ d₂ : String} {ch₁ ch₂ : Char} {t₁ t₂ : List Char}
    (h₁ : d₁.data = ch₁ :: t₁) (h₂ : d₂.data = ch₂ :: t₂) (hne : ch₁ ≠ ch₂)
    (c₁ c₂ : Nat) : repoPath r d₁ c₁ ≠ repoPath r d₂ c₂ := by
  intro h
  have h0 := congrArg String.data h
  rw [repoPath_data, repoPath_data, h₁, h₂] at h0
  have h1 := List.append_cancel_left h0
  simp only [List.cons.injEq, List.cons_append, true_and] at h1
  exact hne h1.1

theorem category_paths_nodup (r d : String) (k : Nat) : (category_paths r d k).Nodup :=
  (List.nodup_range k).map_on (fun c₁ _ c₂ _ h => repoPath_inj_same h)

theorem mem_category_paths {r d p : String} {k : Nat} (hp : p ∈ category_paths r d k) :
    ∃ c, p = repoPath r d c := by
  rw [category_paths, List.mem_map] at hp
  obtain ⟨c, _, rfl⟩ := hp
  exact ⟨c, rfl⟩

theorem session_logical_paths_nodup (r : String) : (session_logical_paths r).Nodup := by
  have hfl : ∀ c₁ c₂ : Nat, repoPath r "front" c₁ ≠ repoPath r "left" c₂ := fun c₁ c₂ =>
    repoPath_ne_diff rfl rfl (by decide) c₁ c₂
  have hfr : ∀ c₁ c₂ : Nat, repoPath r "front" c₁ ≠ repoPath r "right" c₂ := fun c₁ c₂ =>
    repoPath_ne_diff rfl rfl (by decide) c₁ c₂
  have hlr : ∀ c₁ c₂ : Nat, repoPath r "left" c₁ ≠ repoPath r "right" c₂ := fun c₁ c₂ =>
    repoPath_ne_diff rfl rfl (by decide) c₁ c₂
  rw [session_logical_paths]
  rw [List.nodup_append]
  refine ⟨?_, category_paths_nodup r "right" 25, ?_⟩
  · rw [List.nodup_append]
    refine ⟨category_paths_nodup r "front" 50, category_paths_nodup r "left" 25, ?_⟩
    intro p hp hp2
    obtain ⟨c₁, rfl⟩ := mem_category_paths hp
    obtain ⟨c₂, he⟩ := mem_category_paths hp2
    exact hfl c₁ c₂ he
  · intro p hp hp2
    obtain ⟨c₂, he⟩ := mem_category_paths hp2
    rw [List.mem_append] at hp
    rcases hp with hp | hp
    · obtain ⟨c₁, rfl⟩ := mem_category_paths hp
      exact hfr c₁ c₂ he
    · obtain ⟨c₁, rfl⟩ := mem_category_paths hp
      exact hlr c₁ c₂ he

/-! Session-level lemmas: the three per-category batches and their repo
paths. -/

theorem main_session_batches {roll : String} (hr : '/' ∉ roll.data)
    (fs0 : FS) (env : Env) (branch : String) (frames1 frames2 frames3 : Nat → Bytes)
    (a1 a2 a3 : Nat) (h1 : 50 ≤ a1) (h2 : 25 ≤ a2) (h3 : 25 ≤ a3) :
    (main_session fs0 env roll branch frames1 frames2 frames3 a1 a2 a3).batches.map
        (fun b => b.map Prod.snd) =
      [category_paths roll "front" 50, category_paths roll "left" 25,
       category_paths roll "right" 25] := by
  have hfr : '/' ∉ ("front" : String).data := by decide
  have hlf : '/' ∉ ("left" : String).data := by decide
  have hrg : '/' ∉ ("right" : String).data := by decide
  simp only [main_session]
  rw [capture_images_files_map hr hfr, capture_images_files_map hr hlf,
      capture_images_files_map hr hrg]
  rw [Nat.min_eq_left h1, Nat.min_eq_left h2, Nat.min_eq_left h3]
  simp [List.map_map, Function.comp, category_paths]

theorem outcomeFor_path (env : Env) (c : String × CommitData) :
    (outcomeFor env c).logical_path = c.1 := by
  unfold outcomeFor
  rcases env.httpPut c.1 c.2 with ⟨st, body⟩ | e
  · by_cases h1 : st = 201 <;> by_cases h2 : st = 200 <;> simp [h1, h2]
  · rfl

/-! Claims. -/

/-- C1, counterexample to the claim as stated: a session in which the single
item's write is rejected (status 422), so its SyncOutcome is `Failed` — yet
its local file is deleted anyway (the deletion loop at the end of
`capture_images` removes every captured file unconditionally). The claimed
"deleted if and only if Created or Updated" is therefore false: a `Failed`
item does not remain on local disk. -/
theorem claim_C1_counterexample :
    (capture_images [] envRejectPut "S1" 1 "front" "./temp_images" "main"
        zeroFrames 1).run.outcomes =
      [⟨"S1/front/S1_front_0.jpg", SyncResult.Failed,
        "Failed to upload S1/front/S1_front_0.jpg: Unprocessable"⟩] ∧
    (capture_images [] envRejectPut "S1" 1 "front" "./temp_images" "main"
        zeroFrames 1).image_paths = ["./temp_images/S1_front_0.jpg"] ∧
    fs_has (capture_images [] envRejectPut "S1" 1 "front" "./temp_images" "main"
        zeroFrames 1).fs "./temp_images/S1_front_0.jpg" = false :=
  ⟨rfl, rfl, by decide⟩

/-- C1, amended: after `capture_images`, EVERY captured item's local file has
been deleted, regardless of its SyncOutcome — `Failed` items do not remain on
local disk for a retry pass (and the deletion loop itself raises nothing,
because every captured path exists and is distinct). -/
theorem claim_C1 (fs : FS) (env : Env) (roll : String) (n : Nat)
    (d temp branch : String) (frames : Nat → Bytes) (a : Nat) :
    (capture_images fs env roll n d temp branch frames a).err = none ∧
    ∀ p ∈ (capture_images fs env roll n d temp branch frames a).image_paths,
      fs_has (capture_images fs env roll n d temp branch frames a).fs p = false :=
  capture_images_cleanup fs env roll n d temp branch frames a

/-- C1, witness: the amended claim applied to the concrete failing session of
the counterexample. -/
theorem claim_C1_witness :
    (capture_images [] envRejectPut "S1" 1 "front" "./temp_images" "main"
        zeroFrames 1).err = none ∧
    fs_has (capture_images [] envRejectPut "S1" 1 "front" "./temp_images" "main"
        zeroFrames 1).fs "./temp_images/S1_front_0.jpg" = false :=
  ⟨(claim_C1 [] envRejectPut "S1" 1 "front" "./temp_images" "main" zeroFrames 1).1,
   (claim_C1 [] envRejectPut "S1" 1 "front" "./temp_images" "main" zeroFrames 1).2
     "./temp_images/S1_front_0.jpg" (by decide)⟩

/-- C3: every exception raised inside the body of `upload_bulk_to_github` is
caught at that function's single `try`/`except` boundary and converted into a
value — the error-message outcome appended to the messages and recorded in
`aborted` — and when nothing raises, the result carries `aborted = none`. In
both cases the caller receives a `RunResult` value, never a raised
exception. -/
theorem claim_C3 (fs : FS) (env : Env) (branch : String)
    (files_data : List (String × String)) (evs : List Event) (msgs : List String)
    (ocs : List SyncOutcome) :
    (upload_bulk_body fs env branch files_data = (evs, msgs, ocs, .ok ()) →
      upload_bulk_to_github fs env branch files_data = ⟨evs, msgs, ocs, none⟩) ∧
    ∀ e, upload_bulk_body fs env branch files_data = (evs, msgs, ocs, .error e) →
      upload_bulk_to_github fs env branch files_data =
        ⟨evs, msgs ++ ["Error uploading files in bulk: " ++ e], ocs, some e⟩ := by
  constructor
  · intro h
    unfold upload_bulk_to_github
    rw [h]
  · intro e h
    unfold upload_bulk_to_github
    rw [h]

/-- C3, witness: a GET that raises a transport exception mid-batch reaches the
caller only as the bulk error message, with `aborted` recording the exception
text. -/
theorem claim_C3_witness :
    upload_bulk_body fsTwoFront envGetRaise "main" filesTwoFront =
      ([Event.fileRead "./temp_images/S1_front_0.jpg",
        Event.httpGet "S1/front/S1_front_0.jpg"],
       [], [], .error "ConnectionError") ∧
    upload_bulk_to_github fsTwoFront envGetRaise "main" filesTwoFront =
      ⟨[Event.fileRead "./temp_images/S1_front_0.jpg",
        Event.httpGet "S1/front/S1_front_0.jpg"],
       ["Error uploading files in bulk: ConnectionError"], [], some "ConnectionError"⟩ :=
  ⟨rfl,
   (claim_C3 fsTwoFront envGetRaise "main" filesTwoFront
     [Event.fileRead "./temp_images/S1_front_0.jpg",
      Event.httpGet "S1/front/S1_front_0.jpg"] [] []).2 "ConnectionError" rfl⟩

/-- C6, counterexample to the claim as stated: one session drives THREE
separate invocations of the batch upload — one per category, each over only
that category's items — not a single combined batch, so "invoked exactly
once over every item of the session" is false. -/
theorem claim_C6_counterexample :
    (main_session [] envAllNew "S1" "main" zeroFrames zeroFrames zeroFrames
        1 1 1).batches =
      [[("./temp_images/S1_front_0.jpg", "S1/front/S1_front_0.jpg")],
       [("./temp_images/S1_left_0.jpg", "S1/left/S1_left_0.jpg")],
       [("./temp_images/S1_right_0.jpg", "S1/right/S1_right_0.jpg")]] ∧
    (main_session [] envAllNew "S1" "main" zeroFrames zeroFrames zeroFrames
        1 1 1).batches.length ≠ 1 :=
  ⟨rfl, by decide⟩

/-- C6, amended: a session invokes the batch upload exactly three times —
once per category, in the declared order front, left, right — each over
exactly that category's items (not once over a single combined batch). -/
theorem claim_C6 (roll : String) (hr : '/' ∉ roll.data) (fs0 : FS) (env : Env)
    (branch : String) (frames1 frames2 frames3 : Nat → Bytes) (a1 a2 a3 : Nat)
    (h1 : 50 ≤ a1) (h2 : 25 ≤ a2) (h3 : 25 ≤ a3) :
    (main_session fs0 env roll branch frames1 frames2 frames3 a1 a2 a3).batches.length = 3 ∧
    (main_session fs0 env roll branch frames1 frames2 frames3 a1 a2 a3).batches.map
        (fun b => b.map Prod.snd) =
      [category_paths roll "front" 50, category_paths roll "left" 25,
       category_paths roll "right" 25] :=
  ⟨rfl, main_session_batches hr fs0 env branch frames1 frames2 frames3 a1 a2 a3 h1 h2 h3⟩

/-- C6, witness: the amended claim applied to a fully available session for
subject `S1`. -/
theorem claim_C6_witness :
    ('/' ∉ ("S1" : String).data) ∧
    (main_session [] envAllNew "S1" "main" zeroFrames zeroFrames zeroFrames
        50 25 25).batches.length = 3 :=
  ⟨by decide,
   (claim_C6 "S1" (by decide) [] envAllNew "main" zeroFrames zeroFrames zeroFrames
     50 25 25 (by decide) (by decide) (by decide)).1⟩

/-- C8: for a slash-free subject id, a session accepting the declared
front(50), left(25), right(25) frames produces exactly the logical paths
`{subject_id}/{category}/{subject_id}_{category}_{sequence}.jpg` with
sequences 0..49, 0..24, 0..24 (`session_logical_paths`, built by `repoPath`
over `List.range`), 100 in total, pairwise distinct. -/
theorem claim_C8 (roll : String) (hr : '/' ∉ roll.data) (fs0 : FS) (env : Env)
    (branch : String) (frames1 frames2 frames3 : Nat → Bytes) (a1 a2 a3 : Nat)
    (h1 : 50 ≤ a1) (h2 : 25 ≤ a2) (h3 : 25 ≤ a3) :
    ((main_session fs0 env roll branch frames1 frames2 frames3 a1 a2 a3).batches.flatten).map
        Prod.snd = session_logical_paths roll ∧
    (session_logical_paths roll).length = 100 ∧
    (session_logical_paths roll).Nodup := by
  refine ⟨?_, ?_, session_logical_paths_nodup roll⟩
  · have hb := main_session_batches hr fs0 env branch frames1 frames2 frames3 a1 a2 a3 h1 h2 h3
    have hmf : ((main_session fs0 env roll branch frames1 frames2 frames3 a1 a2 a3).batches.flatten).map
        Prod.snd =
        ((main_session fs0 env roll branch frames1 frames2 frames3 a1 a2 a3).batches.map
          (fun b => b.map Prod.snd)).flatten := by
      rw [List.map_flatten]
    rw [hmf, hb]
    simp [session_logical_paths]
  · simp [session_logical_paths, category_paths]

/-- C8, witness: the theorem applied to subject `S1` at full availability;
the path list evaluates to length 100. -/
theorem claim_C8_witness :
    ('/' ∉ ("S1" : String).data) ∧ (session_logical_paths "S1").length = 100 :=
  ⟨by decide,
   (claim_C8 "S1" (by decide) [] envAllNew "main" zeroFrames zeroFrames zeroFrames
     50 25 25 (by decide) (by decide) (by decide)).2.1⟩

/-- C9, counterexample to the claim as stated: purge is `os.remove`, which is
not idempotent — removing the file succeeds once, and purging the
already-purged path raises `FileNotFoundError` instead of being a no-op. -/
theorem claim_C9_counterexample :
    os_remove [("./temp_images/S1_front_0.jpg", [])] "./temp_images/S1_front_0.jpg" =
      .ok [] ∧
    os_remove [] "./temp_images/S1_front_0.jpg" =
      .error "FileNotFoundError: ./temp_images/S1_front_0.jpg" :=
  ⟨rfl, rfl⟩

/-- C9, amended: purging an existing item removes its local file, after which
the file no longer exists and purging the same item again raises
`FileNotFoundError` — the purge operation is not idempotent. -/
theorem claim_C9 (fs : FS) (p : String) (h : fs_has fs p = true) :
    os_remove fs p = .ok (fs_erase fs p) ∧
    fs_has (fs_erase fs p) p = false ∧
    os_remove (fs_erase fs p) p = .error ("FileNotFoundError: " ++ p) :=
  ⟨os_remove_of_has h, fs_has_erase_self fs p,
   os_remove_of_not_has (fs_has_erase_self fs p)⟩

/-- C9, witness: the amended claim applied to a one-file scratch area. -/
theorem claim_C9_witness :
    fs_has [("./temp_images/S1_front_0.jpg", ([] : Bytes))]
      "./temp_images/S1_front_0.jpg" = true ∧
    os_remove (fs_erase [("./temp_images/S1_front_0.jpg", ([] : Bytes))]
        "./temp_images/S1_front_0.jpg") "./temp_images/S1_front_0.jpg" =
      .error "FileNotFoundError: ./temp_images/S1_front_0.jpg" :=
  ⟨by decide,
   (claim_C9 [("./temp_images/S1_front_0.jpg", [])] "./temp_images/S1_front_0.jpg"
     (by decide)).2.2⟩

/-- C10: within one `upload_bulk_to_github` run the event trace splits into a
first phase holding no PUT (local reads and GET lookups only) followed by a
second phase of PUTs only — so no write is issued before every file's lookup
has completed, and each file's create-versus-update decision reflects remote
state observed before the batch's first write. -/
theorem claim_C10 (fs : FS) (env : Env) (branch : String)
    (files_data : List (String × String)) :
    ∃ g u, (upload_bulk_to_github fs env branch files_data).events = g ++ u ∧
      (∀ ev ∈ g, ev.isPut = false) ∧ (∀ ev ∈ u, ev.isPut = true) := by
  unfold upload_bulk_to_github upload_bulk_body
  rcases hbc : buildCommits fs env branch files_data with ⟨evs1, msgs1, res⟩
  have h1 : ∀ ev ∈ evs1, ev.isPut = false := by
    have := buildCommits_no_put fs env branch files_data
    rw [hbc] at this
    exact this
  cases res with
  | error e =>
    exact ⟨evs1, [], by simp, h1, by simp⟩
  | ok commits =>
    rcases hru : runUploads env commits with ⟨evs2, msgs2, ocs, res2⟩
    have h2 : ∀ ev ∈ evs2, ev.isPut = true := by
      have := runUploads_all_put env commits
      rw [hru] at this
      exact this
    cases res2 with
    | ok u =>
      exact ⟨evs1, evs2, by simp [hru], h1, h2⟩
    | error e =>
      exact ⟨evs1, evs2, by simp [hru], h1, h2⟩

/-- C2, counterexample to the claim as stated: two items, where the first
item's PUT raises a transport exception and the second item's PUT would
succeed with 201 — yet the batch aborts: no outcome is produced at all and
the second item's write is never even issued, so a failure that raises does
skip subsequent items. -/
theorem claim_C2_counterexample :
    envFirstPutRaises.httpPut "S1/front/S1_front_1.jpg"
        (commitFor fsTwoFront envFirstPutRaises "main"
          ("./temp_images/S1_front_1.jpg", "S1/front/S1_front_1.jpg")) = .resp 201 "" ∧
    (upload_bulk_to_github fsTwoFront envFirstPutRaises "main" filesTwoFront).outcomes = [] ∧
    (upload_bulk_to_github fsTwoFront envFirstPutRaises "main" filesTwoFront).events.filter
        (fun ev => ev.isPut) =
      [Event.httpPut "S1/front/S1_front_0.jpg"
        (commitFor fsTwoFront envFirstPutRaises "main"
          ("./temp_images/S1_front_0.jpg", "S1/front/S1_front_0.jpg"))] :=
  ⟨by decide, by decide, by decide⟩

/-- C2, amended: partial-failure isolation holds for failures signalled by
HTTP status (where nothing raises): every item then receives an outcome
computed from its own read, lookup and write responses alone, and an item
whose own write returns 201 or 200 gets a non-Failed outcome no matter how
any other item of the batch fares; a failure that raises a transport
exception, by contrast, aborts the remaining items (see the
counterexample). -/
theorem claim_C2 (fs : FS) (env : Env) (branch : String)
    (files_data : List (String × String)) (h : NoRaise fs env branch files_data) :
    (upload_bulk_to_github fs env branch files_data).outcomes =
      files_data.map (fun fd => outcomeFor env (fd.2, commitFor fs env branch fd)) ∧
    ∀ fd ∈ files_data, ∀ st body,
      env.httpPut fd.2 (commitFor fs env branch fd) = .resp st body →
      (st = 201 ∨ st = 200) →
      (outcomeFor env (fd.2, commitFor fs env branch fd)).result ≠ SyncResult.Failed := by
  obtain ⟨evs1, msgs, hru, _⟩ := upload_bulk_spec h
  constructor
  · rw [hru]
  · intro fd hfd st body hput hst
    unfold outcomeFor
    simp only [hput]
    rcases hst with rfl | rfl
    · simp
    · simp

/-- C2, witness: with the first item's write rejected by status 422 and the
second succeeding, nothing raises; the second item's outcome is non-Failed
while the batch still records the first as Failed. -/
theorem claim_C2_witness :
    NoRaise fsTwoFront envMixed "main" filesTwoFront ∧
    (outcomeFor envMixed ("S1/front/S1_front_1.jpg",
        commitFor fsTwoFront envMixed "main"
          ("./temp_images/S1_front_1.jpg", "S1/front/S1_front_1.jpg"))).result ≠
      SyncResult.Failed ∧
    (upload_bulk_to_github fsTwoFront envMixed "main" filesTwoFront).outcomes.map
        (fun oc => oc.result) = [SyncResult.Failed, SyncResult.Created] :=
  ⟨by decide,
   (claim_C2 fsTwoFront envMixed "main" filesTwoFront (by decide)).2
     ("./temp_images/S1_front_1.jpg", "S1/front/S1_front_1.jpg") (by decide)
     201 "" (by decide) (Or.inl rfl),
   by decide⟩

/-- C4: when phase one raises nothing, the assembled commit for each file
carries the `sha` of that file's lookup response exactly when the lookup
status is 200 (update semantics), and no `sha` for any other status (create
semantics); and every write the upload loop issues carries one of the
assembled commit bodies verbatim. -/
theorem claim_C4 (fs : FS) (env : Env) (branch : String)
    (files_data : List (String × String)) (h : phase1Ok fs env files_data) :
    (∃ evs msgs, buildCommits fs env branch files_data =
      (evs, msgs, .ok (files_data.map (fun fd => (fd.2, commitFor fs env branch fd))))) ∧
    (∀ fd ∈ files_data, ∀ st sha, env.httpGet fd.2 = .resp st sha →
      (commitFor fs env branch fd).sha = (if st = 200 then some sha else none)) ∧
    (∀ commits, ∀ ev ∈ (runUploads env commits).1,
      ∃ c ∈ commits, ev = Event.httpPut c.1 c.2) := by
  refine ⟨?_, ?_, runUploads_put_src env⟩
  · obtain ⟨evs, msgs, hbc, _⟩ := buildCommits_spec fs env branch files_data h
    exact ⟨evs, msgs, hbc⟩
  · intro fd hfd st sha hg
    obtain ⟨hread, _⟩ := h fd hfd
    obtain ⟨content, hc⟩ : ∃ content, fs_read fs fd.1 = .ok content := by
      rcases hr2 : fs_read fs fd.1 with e | b
      · rw [hr2] at hread
        simp [isOkE] at hread
      · exact ⟨b, rfl⟩
    unfold commitFor
    rw [hc, hg]
    by_cases hst : st = 200 <;> simp [hst]

/-- C4, witness: against a store already holding the second front image at
version token `abc`, the update commit carries `sha = some "abc"` and the
creation commit carries no sha. -/
theorem claim_C4_witness :
    phase1Ok fsTwoFront envOneExisting filesTwoFront ∧
    (commitFor fsTwoFront envOneExisting "main"
      ("./temp_images/S1_front_1.jpg", "S1/front/S1_front_1.jpg")).sha = some "abc" ∧
    (commitFor fsTwoFront envOneExisting "main"
      ("./temp_images/S1_front_0.jpg", "S1/front/S1_front_0.jpg")).sha = none :=
  ⟨by decide,
   ((claim_C4 fsTwoFront envOneExisting "main" filesTwoFront (by decide)).2.1
     ("./temp_images/S1_front_1.jpg", "S1/front/S1_front_1.jpg") (by decide)
     200 "abc" (by decide)).trans (by decide),
   ((claim_C4 fsTwoFront envOneExisting "main" filesTwoFront (by decide)).2.1
     ("./temp_images/S1_front_0.jpg", "S1/front/S1_front_0.jpg") (by decide)
     404 "" (by decide)).trans (by decide)⟩

/-- C5, counterexample to the claim as stated: a write whose PUT raises a
transport error produces NO per-file Failed outcome at all — the write was
issued (the event trace holds it) but the outcome list is empty and the whole
batch aborts with a single batch-level error instead. -/
theorem claim_C5_counterexample :
    (upload_bulk_to_github fsTwoFront envPutRaise "main"
        [("./temp_images/S1_front_0.jpg", "S1/front/S1_front_0.jpg")]).events.filter
        (fun ev => ev.isPut) =
      [Event.httpPut "S1/front/S1_front_0.jpg" commitSample] ∧
    (upload_bulk_to_github fsTwoFront envPutRaise "main"
        [("./temp_images/S1_front_0.jpg", "S1/front/S1_front_0.jpg")]).outcomes = [] ∧
    (upload_bulk_to_github fsTwoFront envPutRaise "main"
        [("./temp_images/S1_front_0.jpg", "S1/front/S1_front_0.jpg")]).aborted =
      some "ConnectionError" :=
  ⟨by decide, by decide, by decide⟩

/-- C5, amended: for every write that receives a response, the per-file
outcome is classified solely by the response status — Created on 201, Updated
on 200, otherwise Failed with the response body in the diagnostic message;
but a write that raises a transport error yields no per-file outcome: the
upload loop stops there, the items before it keep their outcomes, and the
batch ends with the raised error. -/
theorem claim_C5 (env : Env) (commits : List (String × CommitData))
    (h2 : phase2Ok env commits) (rp : String) (cd : CommitData) (e : String)
    (he : env.httpPut rp cd = .raise e) (c₂ : List (String × CommitData)) :
    runUploads env commits =
      (commits.map (fun c => Event.httpPut c.1 c.2),
       commits.flatMap (fun c => [(outcomeFor env c).detail, ""]),
       commits.map (outcomeFor env), .ok ()) ∧
    (∀ c ∈ commits, ∀ st body, env.httpPut c.1 c.2 = .resp st body →
      outcomeFor env c =
        (if st = 201 then ⟨c.1, SyncResult.Created, "Successfully uploaded " ++ c.1⟩
         else if st = 200 then ⟨c.1, SyncResult.Updated, "Successfully updated " ++ c.1⟩
         else ⟨c.1, SyncResult.Failed, "Failed to upload " ++ c.1 ++ ": " ++ body⟩)) ∧
    runUploads env (commits ++ (rp, cd) :: c₂) =
      (commits.map (fun x => Event.httpPut x.1 x.2) ++ [Event.httpPut rp cd],
       commits.flatMap (fun x => [(outcomeFor env x).detail, ""]),
       commits.map (outcomeFor env), .error e) := by
  refine ⟨runUploads_spec env commits h2, ?_, runUploads_raise env e rp cd he commits c₂ h2⟩
  intro c hc st body hput
  unfold outcomeFor
  rw [hput]

/-- C5, witness: one commit answered 201 then one whose PUT raises — the
first is classified Created, the second aborts the loop with the raised
error and no outcome. -/
theorem claim_C5_witness :
    phase2Ok envLastPutRaises [("S1/front/S1_front_0.jpg", commitSample)] ∧
    envLastPutRaises.httpPut "S1/front/S1_front_1.jpg" commitSample2 =
      .raise "ConnectionError" ∧
    runUploads envLastPutRaises
        ([("S1/front/S1_front_0.jpg", commitSample)] ++
          ("S1/front/S1_front_1.jpg", commitSample2) :: []) =
      ([Event.httpPut "S1/front/S1_front_0.jpg" commitSample,
        Event.httpPut "S1/front/S1_front_1.jpg" commitSample2],
       ["Successfully uploaded S1/front/S1_front_0.jpg", ""],
       [⟨"S1/front/S1_front_0.jpg", SyncResult.Created,
         "Successfully uploaded S1/front/S1_front_0.jpg"⟩],
       .error "ConnectionError") :=
  ⟨by decide, by decide,
   ((claim_C5 envLastPutRaises [("S1/front/S1_front_0.jpg", commitSample)] (by decide)
     "S1/front/S1_front_1.jpg" commitSample2 "ConnectionError" (by decide) []).2.2).trans
     rfl⟩

/-- C7, counterexample to the claim as stated: a batch of one item whose
lookup raises produces zero outcomes for one input — not exactly one outcome
per input item. -/
theorem claim_C7_counterexample :
    (upload_bulk_to_github fsTwoFront envGetRaise "main"
        [("./temp_images/S1_front_0.jpg", "S1/front/S1_front_0.jpg")]).outcomes.length = 0 ∧
    ([("./temp_images/S1_front_0.jpg", "S1/front/S1_front_0.jpg")] :
        List (String × String)).length = 1 :=
  ⟨rfl, rfl⟩

/-- C7, amended: when no operation of the batch raises, the run produces
exactly one outcome per input item, in input order (the outcomes' logical
paths are the input repo paths in order), and the writes are issued in input
order (the PUT events, in trace order, are the input files' commits in
order); a raised exception instead truncates both (see the counterexample). -/
theorem claim_C7 (fs : FS) (env : Env) (branch : String)
    (files_data : List (String × String)) (h : NoRaise fs env branch files_data) :
    (upload_bulk_to_github fs env branch files_data).outcomes.map
        (fun oc => oc.logical_path) = files_data.map Prod.snd ∧
    (upload_bulk_to_github fs env branch files_data).events.filter
        (fun ev => ev.isPut) =
      files_data.map (fun fd => Event.httpPut fd.2 (commitFor fs env branch fd)) := by
  obtain ⟨evs1, msgs, hru, hnp⟩ := upload_bulk_spec h
  rw [hru]
  constructor
  · simp [List.map_map, Function.comp, outcomeFor_path]
  · rw [List.filter_append]
    have he1 : evs1.filter (fun ev => ev.isPut) = [] := by
      rw [List.filter_eq_nil_iff]
      intro ev hev
      simp [hnp ev hev]
    have he2 : (files_data.map (fun fd =>
        Event.httpPut fd.2 (commitFor fs env branch fd))).filter (fun ev => ev.isPut) =
        files_data.map (fun fd => Event.httpPut fd.2 (commitFor fs env branch fd)) := by
      rw [List.filter_eq_self]
      intro ev hev
      rw [List.mem_map] at hev
      obtain ⟨fd, _, rfl⟩ := hev
      rfl
    rw [he1, he2, List.nil_append]

/-- C7, witness: the amended claim applied to the two-file batch against the
store holding one of them. -/
theorem claim_C7_witness :
    NoRaise fsTwoFront envOneExisting "main" filesTwoFront ∧
    (upload_bulk_to_github fsTwoFront envOneExisting "main" filesTwoFront).outcomes.map
        (fun oc => oc.logical_path) =
      ["S1/front/S1_front_0.jpg", "S1/front/S1_front_1.jpg"] :=
  ⟨by decide,
   ((claim_C7 fsTwoFront envOneExisting "main" filesTwoFront (by decide)).1).trans
     (by decide)⟩

end GenDataset
